import Mathlib

/-!
Verification of the staged reconciliation core of the
node-feature-discovery operator.

The development shallowly embeds three source files:
 * `controllers/nodefeaturediscovery_resources.go`: kind extraction via the
   regular expression `\b(\w*kind:\w*)\B.*\b`, the `addResourcesControls`
   stage builder with its 10-case kind switch, and the panic-on-error
   handling (`panicIfError`, out-of-range indexing).
 * the `NFD` stepper (`init`, `addState`, `step`, `last`).
 * the `Reconcile` driver.

Panics are modelled as `none` in an `Option`-typed result.  Errors are
modelled as their message strings.  The cluster, the decoder for each
resource schema, and the readiness checks (which live outside these files)
are abstract parameters.
-/

set_option maxHeartbeats 1000000

/- ===== The kind regular expression =====
The source compiles `\b(\w*kind:\w*)\B.*\b` (Go RE2, leftmost-first
semantics) and calls `FindString` on each manifest.  The functions below
implement exactly that search, specialised to this pattern.  `\w` is the
ASCII class `[0-9A-Za-z_]`, `\b` an ASCII word boundary, `.` any character
except newline. -/

/-- Word character of the Go `\w` class: ASCII letters, digits, underscore. -/
def isWordChar (c : Char) : Bool :=
  c.isAlphanum || c == '_'

/-- Word-character test on an optional character; out of range counts as
a non-word character. -/
def optWord : Option Char → Bool
  | none => false
  | some c => isWordChar c

/-- Word boundary between two adjacent positions, given the characters on
either side. -/
def isBoundary (a b : Option Char) : Bool :=
  optWord a != optWord b

/-- Character just before offset `m` inside the run `d`; `prevC` when `m = 0`. -/
def charBefore (prevC : Option Char) (d : List Char) (m : Nat) : Option Char :=
  if m = 0 then prevC else d[m-1]?

/-- Character at offset `m`: inside `d`, or the first of `rest` past `d`. -/
def charAfter (d rest : List Char) (m : Nat) : Option Char :=
  if m < d.length then d[m]? else rest.head?

/-- Backtracking search for the greedy `.*` followed by `\b`: the largest
`m` below the bound (the length of the dot-matchable run `d`) such that a
word boundary holds at the end position. -/
def dotSearch (prevC : Option Char) (d rest : List Char) : Nat → Option Nat
  | 0 => if isBoundary (charBefore prevC d 0) (charAfter d rest 0) then some 0 else none
  | m+1 =>
    if isBoundary (charBefore prevC d (m+1)) (charAfter d rest (m+1)) then some (m+1)
    else dotSearch prevC d rest m

/-- Run `.*\b` from a position whose remaining input is `s`: the dot can
consume any characters up to the next newline, longest first. -/
def dotStarFrom (prevC : Option Char) (s : List Char) : Option Nat :=
  let d := s.takeWhile (fun c => c != '\n')
  dotSearch prevC d (s.drop d.length) d.length

/-- One attempt for the second `\w*` of the pattern: consume `k` word
characters after the colon, require `\B` (not a word boundary) there, then
match `.*\b`. -/
def w2Attempt (w2 restAfter : List Char) (k : Nat) : Option (Nat × Nat) :=
  if isBoundary (charBefore (some ':') w2 k) (charAfter w2 restAfter k) then none
  else (dotStarFrom (charBefore (some ':') w2 k) (w2.drop k ++ restAfter)).map
    (fun m => (k, m))

/-- Backtracking over the second greedy `\w*`: try the longest consumption
first, mirroring leftmost-first backtracking. -/
def w2Search (w2 restAfter : List Char) : Nat → Option (Nat × Nat)
  | 0 => w2Attempt w2 restAfter 0
  | k+1 => (w2Attempt w2 restAfter (k+1)).orElse (fun _ => w2Search w2 restAfter k)

/-- Attempt to match `\b(\w*kind:\w*)\B.*\b` at one position; `prev` is the
character before the position and `s` the remaining input.  The first
`\w*` and the literal `kind:` force a unique decomposition: the maximal
word run from the position must end in `kind` and be followed by `:`. -/
def matchAt (prev : Option Char) (s : List Char) : Option (List Char) :=
  if isBoundary prev s.head? then
    let run := s.takeWhile isWordChar
    let rest := s.drop run.length
    if 4 ≤ run.length ∧ run.drop (run.length - 4) = [ 'k', 'i', 'n', 'd']
        ∧ rest.head? = some ':' then
      let rest2 := rest.tail
      let w2 := rest2.takeWhile isWordChar
      let restAfter := rest2.drop w2.length
      match w2Search w2 restAfter w2.length with
      | some (k, m) =>
        some (run ++ [ ':'] ++ w2.take k ++ (w2.drop k ++ restAfter).take m)
      | none => none
    else none
  else none

/-- Leftmost-first scan of the whole input, as Go `Regexp.FindString`. -/
def findIn (prev : Option Char) : List Char → Option (List Char)
  | [] => none
  | c :: cs =>
    match matchAt prev (c :: cs) with
    | some mtch => some mtch
    | none => findIn (some c) cs

/-- `reg.FindString(string(m))`, returning `none` when there is no match
(Go then yields the empty string, handled at the use site). -/
def findString (s : String) : Option String :=
  (findIn none s.toList).map (fun l => String.mk l)

/- ===== Split and TrimSpace ===== -/

/-- `strings.Split(s, ":")` on character lists: always at least one piece. -/
def splitColon : List Char → List (List Char)
  | [] => [[]]
  | c :: cs =>
    let r := splitColon cs
    if c == ':' then [] :: r
    else (c :: r.headD []) :: r.tail

/-- The whitespace class of Go `unicode.IsSpace`, restricted to Latin-1
(the manifests here are ASCII). -/
def isSpaceGo (c : Char) : Bool :=
  c == ' ' || c == '\t' || c == '\n' || c == '\x0b' || c == '\x0c' || c == '\r'
    || c == '\u0085' || c == ' '

/-- `strings.TrimSpace` on character lists. -/
def trimSpaceList (s : List Char) : List Char :=
  ((s.dropWhile isSpaceGo).reverse.dropWhile isSpaceGo).reverse

/-- The kind extraction of `addResourcesControls`:
`kind := reg.FindString(string(m)); slce := strings.Split(kind, ":");
kind = strings.TrimSpace(slce[1])`.  `FindString` yields `""` on no
match; indexing `slce[1]` of the one-element split of `""` is then a Go
out-of-range panic, modelled as `none`. -/
def extractKindResult (m : String) : Option String :=
  let kind := ((findString m).getD "").toList
  let slce := splitColon kind
  match slce[1]? with
  | none => none
  | some piece => some (String.mk (trimSpaceList piece))

/- ===== Resources and the stage builder ===== -/

/-- The recognized kind labels: one constructor per case of the switch in
`addResourcesControls`.  The switch has no `Pod` case even though the
`Resources` struct has a `Pod` field, and each constructor also names the
control function appended for that case. -/
inductive Kind where
  | Namespace
  | ServiceAccount
  | ClusterRole
  | ClusterRoleBinding
  | Role
  | RoleBinding
  | ConfigMap
  | DaemonSet
  | Service
  | SecurityContextConstraints
deriving DecidableEq, Fintype

/-- The `Resources` struct: one field per supported resource type, holding
the decoded object.  Decoded objects are abstracted to a type `V`; the Go
zero value of each field is the `v0` of `Resources.zero`. -/
structure Resources (V : Type) where
  Namespace : V
  ServiceAccount : V
  Role : V
  RoleBinding : V
  ClusterRole : V
  ClusterRoleBinding : V
  ConfigMap : V
  DaemonSet : V
  Pod : V
  Service : V
  SecurityContextConstraints : V
deriving DecidableEq

/-- `Resources{}`: every field zero-valued. -/
def Resources.zero (v0 : V) : Resources V :=
  ⟨v0, v0, v0, v0, v0, v0, v0, v0, v0, v0, v0⟩

/-- The field the switch decodes into for a given recognized kind. -/
def getField (r : Resources V) : Kind → V
  | Kind.Namespace => r.Namespace
  | Kind.ServiceAccount => r.ServiceAccount
  | Kind.ClusterRole => r.ClusterRole
  | Kind.ClusterRoleBinding => r.ClusterRoleBinding
  | Kind.Role => r.Role
  | Kind.RoleBinding => r.RoleBinding
  | Kind.ConfigMap => r.ConfigMap
  | Kind.DaemonSet => r.DaemonSet
  | Kind.Service => r.Service
  | Kind.SecurityContextConstraints => r.SecurityContextConstraints

/-- Overwrite the field for one recognized kind, as `s.Decode(m, nil, &res.X)`
writing into the corresponding field. -/
def setField (r : Resources V) (k : Kind) (v : V) : Resources V :=
  match k with
  | Kind.Namespace => { r with Namespace := v }
  | Kind.ServiceAccount => { r with ServiceAccount := v }
  | Kind.ClusterRole => { r with ClusterRole := v }
  | Kind.ClusterRoleBinding => { r with ClusterRoleBinding := v }
  | Kind.Role => { r with Role := v }
  | Kind.RoleBinding => { r with RoleBinding := v }
  | Kind.ConfigMap => { r with ConfigMap := v }
  | Kind.DaemonSet => { r with DaemonSet := v }
  | Kind.Service => { r with Service := v }
  | Kind.SecurityContextConstraints => { r with SecurityContextConstraints := v }

/-- The string dispatch of the switch in `addResourcesControls`. -/
def recognizeKind : String → Option Kind
  | "Namespace" => some Kind.Namespace
  | "ServiceAccount" => some Kind.ServiceAccount
  | "ClusterRole" => some Kind.ClusterRole
  | "ClusterRoleBinding" => some Kind.ClusterRoleBinding
  | "Role" => some Kind.Role
  | "RoleBinding" => some Kind.RoleBinding
  | "ConfigMap" => some Kind.ConfigMap
  | "DaemonSet" => some Kind.DaemonSet
  | "Service" => some Kind.Service
  | "SecurityContextConstraints" => some Kind.SecurityContextConstraints
  | _ => none

/-- Accumulator of the loop in `addResourcesControls`: the bundle under
construction, the control-function list (`ctrl`), and the skip-log entries
emitted for unrecognized kinds. -/
structure BuildAcc (V : Type) where
  res : Resources V
  ctrl : List Kind
  logs : List String
deriving DecidableEq

/-- One iteration of the manifest loop of `addResourcesControls`: extract
the kind (out-of-range indexing panics, `none`), dispatch on it; a
recognized kind decodes into its bundle field (`panicIfError` on decode
failure, `none`) and appends the matching control function; an
unrecognized kind only logs. -/
def processManifest (dec : Kind → String → Option V) (acc : BuildAcc V) (m : String) :
    Option (BuildAcc V) :=
  match extractKindResult m with
  | none => none
  | some kind =>
    match recognizeKind kind with
    | some k =>
      match dec k m with
      | none => none
      | some v => some ⟨setField acc.res k v, acc.ctrl ++ [k], acc.logs⟩
    | none => some ⟨acc.res, acc.ctrl, acc.logs ++ [kind]⟩

/-- The manifest loop of `addResourcesControls`. -/
def buildFrom (dec : Kind → String → Option V) : BuildAcc V → List String → Option (BuildAcc V)
  | acc, [] => some acc
  | acc, m :: ms =>
    match processManifest dec acc m with
    | none => none
    | some acc2 => buildFrom dec acc2 ms

/-- `addResourcesControls(path)`: read every manifest under `path` (the
filesystem is the abstract map `filesOf`, in traversal order, as
`getAssetsFrom`) and run the manifest loop from the zero bundle. -/
def addResourcesControls (v0 : V) (filesOf : String → List String)
    (dec : Kind → String → Option V) (path : String) : Option (BuildAcc V) :=
  buildFrom dec ⟨Resources.zero v0, [], []⟩ (filesOf path)

/-- The kind a manifest dispatches to, if extraction succeeds and the label
is recognized. -/
def kindOf (m : String) : Option Kind :=
  (extractKindResult m).bind recognizeKind

/-- Recognized kinds of a manifest list, in decode order. -/
def recKinds (ms : List String) : List Kind :=
  ms.filterMap kindOf

/-- The kind labels logged as unknown, in decode order. -/
def unrecNames (ms : List String) : List String :=
  ms.filterMap (fun m =>
    match extractKindResult m with
    | none => none
    | some s =>
      match recognizeKind s with
      | some _ => none
      | none => some s)

/-- The last manifest of a list that dispatches to kind `k`. -/
def lastOfKind (ms : List String) (k : Kind) : Option String :=
  ms.reverse.find? (fun m => kindOf m == some k)

/- ===== The NFD stepper ===== -/

/-- The readiness status returned by a control function. -/
inductive ResourceStatus where
  | Ready
  | NotReady
deriving DecidableEq

/-- Go errors, modelled by their message. -/
abbrev Err := String

/-- The `NFD` struct.  Decoded resource values are abstracted to `V` and
control functions to an abstract type `F` of function identities, given
meaning by an evaluation map passed to `step`; the stage builder
instantiates `F` with `Kind`, since the switch appends one named control
function per recognized kind.  The Go field `rec` (the reconciler
reference) is called `recr` here because `rec` is reserved; it and the
bound instance `ins` are modelled by identity, `none` standing for the Go
nil pointer. -/
structure NFD (V F : Type) where
  resources : List (Resources V)
  controls : List (List F)
  recr : Option String
  ins : Option String
  idx : Nat
deriving DecidableEq

/-- The loop body of `NFD.step`: run the control functions of one stage in
list order over the current state `n`; the first one returning an error
yields that error, the first one returning a non-`Ready` status yields
`ResourceNotReady`. -/
def runStage (eval : F → NFD V F → ResourceStatus × Option Err) (n : NFD V F) :
    List F → Option Err
  | [] => none
  | f :: rest =>
    match (eval f n).2 with
    | some e => some e
    | none =>
      if (eval f n).1 ≠ ResourceStatus.Ready then some "ResourceNotReady"
      else runStage eval n rest

/-- The control functions of a stage that `step` actually invokes: the
prefix of the stage up to and including the first function that errs or
reports non-ready. -/
def invokedControls (eval : F → NFD V F → ResourceStatus × Option Err) (n : NFD V F) :
    List F → List F
  | [] => []
  | f :: rest =>
    f :: (match (eval f n).2 with
      | some _ => []
      | none =>
        if (eval f n).1 ≠ ResourceStatus.Ready then []
        else invokedControls eval n rest)

/-- `NFD.step`: index the current stage (`n.controls[n.idx]`, a Go panic
when out of range, modelled as `none`), run its control functions, and on
full success increment the index.  The result pairs the post-call state
with the returned error, mirroring the in-place mutation of the Go
receiver. -/
def NFD.step (eval : F → NFD V F → ResourceStatus × Option Err) (n : NFD V F) :
    Option (NFD V F × Option Err) :=
  match n.controls[n.idx]? with
  | none => none
  | some stage =>
    match runStage eval n stage with
    | some e => some (n, some e)
    | none => some ({ n with idx := n.idx + 1 }, none)

/-- `NFD.last`: all control-function sets processed. -/
def NFD.last (n : NFD V F) : Bool :=
  n.idx == n.controls.length

/-- `NFD.addState`: build the resources and controls of one manifest
directory and append them (a panic in the builder propagates). -/
def NFD.addState (v0 : V) (filesOf : String → List String)
    (dec : Kind → String → Option V) (n : NFD V Kind) (path : String) :
    Option (NFD V Kind) :=
  match addResourcesControls v0 filesOf dec path with
  | none => none
  | some acc =>
    some { n with controls := n.controls ++ [acc.ctrl],
                  resources := n.resources ++ [acc.res] }

/-- `NFD.init`: bind the reconciler and the instance, reset the index, and
only when the control list is empty build the two configured stages. -/
def NFD.init (v0 : V) (filesOf : String → List String)
    (dec : Kind → String → Option V) (r i : String) (n : NFD V Kind) :
    Option (NFD V Kind) :=
  let n1 : NFD V Kind := { n with recr := some r, ins := some i, idx := 0 }
  if n1.controls.length == 0 then
    match n1.addState v0 filesOf dec "/opt/nfd/master" with
    | none => none
    | some n2 => n2.addState v0 filesOf dec "/opt/nfd/worker"
  else some n1

/-- The convergence loop of `Reconcile`: repeatedly `step`; stop at the
first error or once `last` holds after a successful step.  The loop
terminates because a successful step advances the index over unchanged
controls while the old index was in range. -/
def NFD.runSteps (eval : F → NFD V F → ResourceStatus × Option Err) (n : NFD V F) :
    Option (NFD V F × Option Err) :=
  match h : n.step eval with
  | none => none
  | some (n2, some e) => some (n2, some e)
  | some (n2, none) =>
    if n2.last then some (n2, none) else n2.runSteps eval
termination_by n.controls.length - n.idx
decreasing_by
  have hshape : n2.controls = n.controls ∧ n2.idx = n.idx + 1
      ∧ n.idx < n.controls.length := by
    unfold NFD.step at h
    split at h
    · exact absurd h (by simp)
    · rename_i stage hg
      have hlt : n.idx < n.controls.length := by
        rcases List.getElem?_eq_some.mp hg with ⟨hl, _⟩
        exact hl
      split at h
      · simp at h
      · simp only [Option.some.injEq, Prod.mk.injEq] at h
        rcases h with ⟨h1, _⟩
        subst h1
        exact ⟨rfl, rfl, hlt⟩
  obtain ⟨hc, hi, hlt⟩ := hshape
  rw [hc, hi]
  omega

/-- Outcome of fetching the managed instance, as classified by
`Reconcile`: not found, failed for another reason, or fetched. -/
inductive FetchResult where
  | notFound
  | failed (e : Err)
  | found
deriving DecidableEq

/-- `ctrl.Result`: the requeue decision returned to the dispatcher.  The
zero value `ctrl.Result{}` has `Requeue` false. -/
structure CtrlResult where
  Requeue : Bool
deriving DecidableEq

/-- `Reconcile`: on a not-found fetch return no-requeue with nil error; on
any other fetch failure requeue with the error; otherwise `init` the
stepper on the instance and loop `step` until an error (returned with the
zero `reconcile.Result{}`) or until `last` holds.  The returned triple
carries the result, the error, and the stepper state after the call. -/
def Reconcile (v0 : V) (filesOf : String → List String)
    (dec : Kind → String → Option V)
    (eval : Kind → NFD V Kind → ResourceStatus × Option Err)
    (fetch : FetchResult) (r i : String) (n : NFD V Kind) :
    Option (CtrlResult × Option Err × NFD V Kind) :=
  match fetch with
  | FetchResult.notFound => some (⟨false⟩, none, n)
  | FetchResult.failed e => some (⟨true⟩, some e, n)
  | FetchResult.found =>
    match n.init v0 filesOf dec r i with
    | none => none
    | some n1 =>
      match n1.runSteps eval with
      | none => none
      | some (n2, some e) => some (⟨false⟩, some e, n2)
      | some (n2, none) => some (⟨false⟩, none, n2)

/-- A control-function result that lets the stage proceed: no error and a
`Ready` status. -/
def isReadyRes (p : ResourceStatus × Option Err) : Prop :=
  p.2 = none ∧ p.1 = ResourceStatus.Ready

instance (p : ResourceStatus × Option Err) : Decidable (isReadyRes p) := by
  unfold isReadyRes; infer_instance

/-- The error `step` returns for a failing control-function result: the
function's own error if present, otherwise `ResourceNotReady`. -/
def failMsg (p : ResourceStatus × Option Err) : Err :=
  match p.2 with
  | some e => e
  | none => "ResourceNotReady"

/- ===== Concrete fixtures for witnesses ===== -/

/-- A manifest directory with one unrecognized kind among four files and a
repeated recognized kind. -/
def msW : List String :=
  ["kind: Namespace\n", "kind: Frobnicator\n",
   "kind: ConfigMap\na", "kind: ConfigMap\nabc"]

/-- A decode oracle distinguishing manifests by length. -/
def decW : Kind → String → Option Nat := fun _ m => some m.length

/-- A three-function stage. -/
def stageW : List Kind := [Kind.Namespace, Kind.ServiceAccount, Kind.Role]

/-- A stepper holding the stage `stageW`, cursor at 0. -/
def nW : NFD Unit Kind := ⟨[], [stageW], none, none, 0⟩

/-- Readiness where only `ServiceAccount` reports NotReady. -/
def evalW : Kind → NFD Unit Kind → ResourceStatus × Option Err :=
  fun f _ =>
    match f with
    | Kind.ServiceAccount => (ResourceStatus.NotReady, none)
    | _ => (ResourceStatus.Ready, none)

/-- Readiness where everything reports Ready. -/
def evalReadyW : Kind → NFD Unit Kind → ResourceStatus × Option Err :=
  fun _ _ => (ResourceStatus.Ready, none)

/-- Readiness where everything reports NotReady. -/
def evalC3 : Kind → NFD Unit Kind → ResourceStatus × Option Err :=
  fun _ _ => (ResourceStatus.NotReady, none)

/-- A converged stepper: cursor equal to the stage count. -/
def nConv : NFD Unit Kind := ⟨[], [stageW], none, none, 1⟩

/-- A one-stage stepper already bound to reconciler r and instance i. -/
def nC3 : NFD Unit Kind := ⟨[], [[Kind.Namespace]], some "r", some "i", 0⟩

/-- A one-stage unbound stepper with a stale cursor. -/
def nFull : NFD Unit Kind := ⟨[], [[Kind.Namespace]], none, none, 5⟩

/-- A stepper with no stages built yet. -/
def nEmpty : NFD Unit Kind := ⟨[], [], none, none, 5⟩

/-- An empty filesystem. -/
def filesEmpty : String → List String := fun _ => []

/-- A decode oracle that always succeeds. -/
def decUnit : Kind → String → Option Unit := fun _ _ => some ()

/- ===== Stage-loop lemmas ===== -/

/-- A stage whose control functions all report ready runs to the end with
no error. -/
theorem runStage_of_all_ready (eval : F → NFD V F → ResourceStatus × Option Err)
    (n : NFD V F) :
    ∀ stage : List F, (∀ f ∈ stage, isReadyRes (eval f n)) →
      runStage eval n stage = none := by
  intro stage
  induction stage with
  | nil => intro _; rfl
  | cons f rest ih =>
    intro h
    obtain ⟨h1, h2⟩ := h f (by simp)
    unfold runStage
    rw [h1, h2]
    simp only [ne_eq, not_true_eq_false, if_false]
    exact ih (fun g hg => h g (by simp [hg]))

/-- A stage whose control functions all report ready has every function
invoked. -/
theorem invoked_of_all_ready (eval : F → NFD V F → ResourceStatus × Option Err)
    (n : NFD V F) :
    ∀ stage : List F, (∀ f ∈ stage, isReadyRes (eval f n)) →
      invokedControls eval n stage = stage := by
  intro stage
  induction stage with
  | nil => intro _; rfl
  | cons f rest ih =>
    intro h
    obtain ⟨h1, h2⟩ := h f (by simp)
    unfold invokedControls
    rw [h1, h2]
    simp only [ne_eq, not_true_eq_false, if_false]
    rw [ih (fun g hg => h g (by simp [hg]))]

/-- A stage fails at its first non-ready control function: the loop
returns that function's error (or `ResourceNotReady`) and invokes exactly
the functions up to and including it. -/
theorem runStage_first_fail (eval : F → NFD V F → ResourceStatus × Option Err)
    (n : NFD V F) :
    ∀ (stage : List F) (i : Nat) (f : F), stage[i]? = some f →
      (∀ g ∈ stage.take i, isReadyRes (eval g n)) →
      ¬ isReadyRes (eval f n) →
      runStage eval n stage = some (failMsg (eval f n))
      ∧ invokedControls eval n stage = stage.take (i+1) := by
  intro stage
  induction stage with
  | nil => intro i f hf; simp at hf
  | cons f0 rest ih =>
    intro i f hf hpre hfail
    cases i with
    | zero =>
      simp only [List.getElem?_cons_zero, Option.some.injEq] at hf
      subst hf
      unfold runStage invokedControls failMsg
      cases hp : (eval f0 n).2 with
      | some e => simp
      | none =>
        have hns : (eval f0 n).1 ≠ ResourceStatus.Ready := by
          intro hr; exact hfail ⟨hp, hr⟩
        simp [hns]
    | succ j =>
      simp only [List.getElem?_cons_succ] at hf
      have h0 : isReadyRes (eval f0 n) := hpre f0 (by simp [List.take_succ_cons])
      obtain ⟨h1, h2⟩ := h0
      have hpre2 : ∀ g ∈ rest.take j, isReadyRes (eval g n) := by
        intro g hg
        exact hpre g (by simp [List.take_succ_cons, hg])
      obtain ⟨ha, hb⟩ := ih j f hf hpre2 hfail
      constructor
      · unfold runStage
        rw [h1, h2]
        simp only [ne_eq, not_true_eq_false, if_false]
        exact ha
      · unfold invokedControls
        rw [h1, h2]
        simp only [ne_eq, not_true_eq_false, if_false]
        rw [hb, List.take_succ_cons]

/- ===== Loop equation lemmas for runSteps ===== -/

/-- The loop stops at a step that returns an error. -/
theorem runSteps_error (eval : F → NFD V F → ResourceStatus × Option Err)
    (n n2 : NFD V F) (e : Err) (h : n.step eval = some (n2, some e)) :
    n.runSteps eval = some (n2, some e) := by
  unfold NFD.runSteps
  split
  · rename_i heq; rw [h] at heq; cases heq
  · rename_i a b heq; rw [h] at heq; injection heq with heq2; injection heq2 with ha hb
    subst ha; injection hb with hb2; subst hb2; rfl
  · rename_i a heq; rw [h] at heq; injection heq with heq2; injection heq2 with ha hb
    cases hb

/-- The loop stops once a successful step reaches the last stage. -/
theorem runSteps_done (eval : F → NFD V F → ResourceStatus × Option Err)
    (n n2 : NFD V F) (h : n.step eval = some (n2, none)) (hl : n2.last = true) :
    n.runSteps eval = some (n2, none) := by
  unfold NFD.runSteps
  split
  · rename_i heq; rw [h] at heq; cases heq
  · rename_i a b heq; rw [h] at heq; injection heq with heq2; injection heq2 with ha hb
    cases hb
  · rename_i a heq; rw [h] at heq; injection heq with heq2; injection heq2 with ha hb
    subst ha; rw [hl]; simp

/-- The loop continues after a successful step short of the last stage. -/
theorem runSteps_continue (eval : F → NFD V F → ResourceStatus × Option Err)
    (n n2 : NFD V F) (h : n.step eval = some (n2, none)) (hl : n2.last = false) :
    n.runSteps eval = n2.runSteps eval := by
  conv_lhs => unfold NFD.runSteps
  split
  · rename_i heq; rw [h] at heq; cases heq
  · rename_i a b heq; rw [h] at heq; injection heq with heq2; injection heq2 with ha hb
    cases hb
  · rename_i a heq; rw [h] at heq; injection heq with heq2; injection heq2 with ha hb
    subst ha; rw [hl]; simp

/- ===== Stage-builder lemmas ===== -/

/-- Every field of the zero bundle is the zero value. -/
theorem getField_zero (v0 : V) (k : Kind) : getField (Resources.zero v0) k = v0 := by
  cases k <;> rfl

/-- Reading a field after writing one: only the written kind changes. -/
theorem getField_setField (r : Resources V) (k0 k : Kind) (v : V) :
    getField (setField r k0 v) k = if k = k0 then v else getField r k := by
  cases k0 <;> cases k <;> simp [getField, setField]

/-- The last manifest of a kind is unchanged by prepending a manifest when
some later manifest already has that kind. -/
theorem lastOfKind_cons_of_some (m : String) (ms : List String) (k : Kind)
    (m2 : String) (h : lastOfKind ms k = some m2) :
    lastOfKind (m :: ms) k = some m2 := by
  unfold lastOfKind at h ⊢
  rw [List.reverse_cons, List.find?_append, h]
  rfl

/-- The last manifest of a kind falls back to the newly prepended manifest
when no later manifest has that kind. -/
theorem lastOfKind_cons_of_none (m : String) (ms : List String) (k : Kind)
    (h : lastOfKind ms k = none) :
    lastOfKind (m :: ms) k = if kindOf m == some k then some m else none := by
  unfold lastOfKind at h ⊢
  rw [List.reverse_cons, List.find?_append, h]
  cases hpm : kindOf m == some k <;> simp [List.find?, hpm, Option.orElse]

/-- Characterization of the manifest loop: when every manifest's kind
extraction succeeds and every recognized manifest decodes, the loop
succeeds, appends one control function per recognized manifest in decode
order, logs one entry per unrecognized manifest, leaves fields of kinds
with no manifest untouched, and each written field holds the decode of the
last manifest of its kind. -/
theorem buildFrom_charac (dec : Kind → String → Option V) :
    ∀ (ms : List String) (acc : BuildAcc V),
      (∀ m ∈ ms, (extractKindResult m).isSome = true) →
      (∀ m ∈ ms, ∀ k, kindOf m = some k → (dec k m).isSome = true) →
      ∃ acc2, buildFrom dec acc ms = some acc2
        ∧ acc2.ctrl = acc.ctrl ++ recKinds ms
        ∧ acc2.logs = acc.logs ++ unrecNames ms
        ∧ (∀ k : Kind, lastOfKind ms k = none →
            getField acc2.res k = getField acc.res k)
        ∧ (∀ k : Kind, ∀ m2, lastOfKind ms k = some m2 →
            ∃ v, dec k m2 = some v ∧ getField acc2.res k = v) := by
  intro ms
  induction ms with
  | nil =>
    intro acc _ _
    refine ⟨acc, rfl, by simp [recKinds], by simp [unrecNames], ?_, ?_⟩
    · intro k _; rfl
    · intro k m2 h; simp [lastOfKind] at h
  | cons m ms ih =>
    intro acc hx hd
    obtain ⟨s, hs⟩ := Option.isSome_iff_exists.mp (hx m (by simp))
    cases hrec : recognizeKind s with
    | some k0 =>
      have hk0 : kindOf m = some k0 := by simp [kindOf, hs, hrec]
      obtain ⟨v, hv⟩ := Option.isSome_iff_exists.mp (hd m (by simp) k0 hk0)
      have hproc : processManifest dec acc m =
          some ⟨setField acc.res k0 v, acc.ctrl ++ [k0], acc.logs⟩ := by
        simp [processManifest, hs, hrec, hv]
      obtain ⟨acc2, hb, hctrl, hlogs, hnone, hsome⟩ :=
        ih ⟨setField acc.res k0 v, acc.ctrl ++ [k0], acc.logs⟩
          (fun m2 hm2 => hx m2 (by simp [hm2]))
          (fun m2 hm2 => hd m2 (by simp [hm2]))
      refine ⟨acc2, ?_, ?_, ?_, ?_, ?_⟩
      · unfold buildFrom; rw [hproc]; exact hb
      · rw [hctrl]; simp [recKinds, List.filterMap_cons, hk0]
      · rw [hlogs]; simp [unrecNames, List.filterMap_cons, hs, hrec]
      · intro k hlast
        cases hl : lastOfKind ms k with
        | some m3 =>
          rw [lastOfKind_cons_of_some m ms k m3 hl] at hlast
          cases hlast
        | none =>
          rw [lastOfKind_cons_of_none m ms k hl] at hlast
          have hne : (kindOf m == some k) = false := by
            cases hbeq : kindOf m == some k with
            | true => rw [hbeq] at hlast; simp at hlast
            | false => rfl
          have hkk : ¬ k = k0 := by
            intro hkeq
            subst hkeq
            rw [hk0] at hne
            simp at hne
          rw [hnone k hl, getField_setField, if_neg hkk]
      · intro k m2 hlast
        cases hl : lastOfKind ms k with
        | some m3 =>
          rw [lastOfKind_cons_of_some m ms k m3 hl] at hlast
          exact hsome k m2 (hl.trans hlast)
        | none =>
          rw [lastOfKind_cons_of_none m ms k hl] at hlast
          by_cases hbeq : (kindOf m == some k) = true
          · rw [if_pos hbeq] at hlast
            injection hlast with hm2
            subst hm2
            have hkk : k0 = k := by
              rw [hk0] at hbeq
              simpa using hbeq
            subst hkk
            refine ⟨v, hv, ?_⟩
            rw [hnone k0 hl, getField_setField, if_pos rfl]
          · rw [if_neg hbeq] at hlast
            cases hlast
    | none =>
      have hk0 : kindOf m = none := by simp [kindOf, hs, hrec]
      have hproc : processManifest dec acc m =
          some ⟨acc.res, acc.ctrl, acc.logs ++ [s]⟩ := by
        simp [processManifest, hs, hrec]
      obtain ⟨acc2, hb, hctrl, hlogs, hnone, hsome⟩ :=
        ih ⟨acc.res, acc.ctrl, acc.logs ++ [s]⟩
          (fun m2 hm2 => hx m2 (by simp [hm2]))
          (fun m2 hm2 => hd m2 (by simp [hm2]))
      have hcons : ∀ k : Kind, lastOfKind (m :: ms) k = lastOfKind ms k := by
        intro k
        cases hl : lastOfKind ms k with
        | some m3 => exact lastOfKind_cons_of_some m ms k m3 hl
        | none =>
          rw [lastOfKind_cons_of_none m ms k hl, hk0]
          rfl
      refine ⟨acc2, ?_, ?_, ?_, ?_, ?_⟩
      · unfold buildFrom; rw [hproc]; exact hb
      · rw [hctrl]; simp [recKinds, List.filterMap_cons, hk0]
      · rw [hlogs]; simp [unrecNames, List.filterMap_cons, hs, hrec]
      · intro k hlast
        rw [hcons k] at hlast
        exact hnone k hlast
      · intro k m2 hlast
        rw [hcons k] at hlast
        exact hsome k m2 hlast

/-- Counting: each manifest whose extraction succeeds contributes either
one control function or one skip-log entry. -/
theorem recKinds_unrec_lengths :
    ∀ ms : List String, (∀ m ∈ ms, (extractKindResult m).isSome = true) →
      (recKinds ms).length + (unrecNames ms).length = ms.length
      ∧ (unrecNames ms).length
          = (ms.filter (fun m => (kindOf m).isNone)).length := by
  intro ms
  induction ms with
  | nil => intro _; simp [recKinds, unrecNames]
  | cons m ms ih =>
    intro hx
    obtain ⟨s, hs⟩ := Option.isSome_iff_exists.mp (hx m (by simp))
    obtain ⟨ih1, ih2⟩ := ih (fun m2 hm2 => hx m2 (by simp [hm2]))
    cases hrec : recognizeKind s with
    | some k0 =>
      have hk : kindOf m = some k0 := by simp [kindOf, hs, hrec]
      have e1 : recKinds (m :: ms) = k0 :: recKinds ms := by
        simp [recKinds, List.filterMap_cons, hk]
      have e2 : unrecNames (m :: ms) = unrecNames ms := by
        simp [unrecNames, List.filterMap_cons, hs, hrec]
      have e3 : (m :: ms).filter (fun m2 => (kindOf m2).isNone)
          = ms.filter (fun m2 => (kindOf m2).isNone) := by
        simp [List.filter_cons, hk]
      constructor
      · rw [e1, e2]
        simp only [List.length_cons]
        omega
      · rw [e2, e3]
        exact ih2
    | none =>
      have hk : kindOf m = none := by simp [kindOf, hs, hrec]
      have e1 : recKinds (m :: ms) = recKinds ms := by
        simp [recKinds, List.filterMap_cons, hk]
      have e2 : unrecNames (m :: ms) = s :: unrecNames ms := by
        simp [unrecNames, List.filterMap_cons, hs, hrec]
      have e3 : (m :: ms).filter (fun m2 => (kindOf m2).isNone)
          = m :: ms.filter (fun m2 => (kindOf m2).isNone) := by
        simp [List.filter_cons, hk]
      constructor
      · rw [e1, e2]
        simp only [List.length_cons]
        omega
      · rw [e2, e3]
        simp only [List.length_cons]
        omega

/- ===== Claim theorems: stage builder ===== -/

/-- Claim C4 (code bug): a manifest with recognized kind Namespace whose
content fails schema decode makes addResourcesControls abort through
panicIfError (modelled as none); no DecodeError is returned to the
caller, contrary to the claim. -/
theorem decode_failure_aborts_build :
    addResourcesControls () (fun _ => ["kind: Namespace\n"])
      (fun _ _ => (none : Option Unit)) "/opt/nfd/master" = none := by
  decide

/-- Claim C5: for a directory whose manifests all carry a kind label and
whose recognized manifests decode, construction succeeds, appends one
control function per recognized manifest in decode order (N minus K of N
when K are unrecognized), logs one skip entry per unrecognized manifest,
and leaves the bundle fields of kinds without manifests at the zero
value. -/
theorem stage_build_skips_unrecognized
    (v0 : V) (filesOf : String → List String) (dec : Kind → String → Option V)
    (path : String)
    (hx : ∀ m ∈ filesOf path, (extractKindResult m).isSome = true)
    (hd : ∀ m ∈ filesOf path, ∀ k, kindOf m = some k → (dec k m).isSome = true) :
    ∃ acc, addResourcesControls v0 filesOf dec path = some acc
      ∧ acc.ctrl = recKinds (filesOf path)
      ∧ acc.logs = unrecNames (filesOf path)
      ∧ acc.ctrl.length + acc.logs.length = (filesOf path).length
      ∧ acc.logs.length
          = ((filesOf path).filter (fun m => (kindOf m).isNone)).length
      ∧ (∀ k : Kind, lastOfKind (filesOf path) k = none →
          getField acc.res k = v0) := by
  obtain ⟨acc, hb, hctrl, hlogs, hnone, _⟩ :=
    buildFrom_charac dec (filesOf path) ⟨Resources.zero v0, [], []⟩ hx hd
  obtain ⟨hl1, hl2⟩ := recKinds_unrec_lengths (filesOf path) hx
  refine ⟨acc, hb, ?_, ?_, ?_, ?_, ?_⟩
  · simpa using hctrl
  · simpa using hlogs
  · rw [hctrl, hlogs]; simpa using hl1
  · rw [hlogs]; simpa using hl2
  · intro k hk
    rw [hnone k hk]
    exact getField_zero v0 k

/-- Claim C5 witness: the four-manifest directory msW (one unrecognized
kind) builds three control functions and one skip log. -/
theorem stage_build_skips_witness :
    ∃ acc, addResourcesControls 0 (fun _ => msW) decW "/opt/nfd/master" = some acc
      ∧ acc.ctrl = recKinds msW
      ∧ acc.logs = unrecNames msW
      ∧ acc.ctrl.length + acc.logs.length = msW.length
      ∧ acc.logs.length = (msW.filter (fun m => (kindOf m).isNone)).length
      ∧ (∀ k : Kind, lastOfKind msW k = none → getField acc.res k = 0) :=
  stage_build_skips_unrecognized 0 (fun _ => msW) decW "/opt/nfd/master"
    (by decide) (by decide)

/-- Claim C8 (code bug): the extraction takes the first regex match
anywhere in the text, so a kind marker inside a comment line wins over
the document-root kind field. -/
theorem kind_extraction_reads_comment :
    extractKindResult "# kind: Foo\nkind: Namespace\n" = some "Foo"
    ∧ extractKindResult "# kind: Foo\nkind: Namespace\n" ≠ some "Namespace" := by
  refine ⟨by decide, by decide⟩

/-- Claim C9: construction writes one bundle field per recognized kind,
the field of each kind holding the decode of the last manifest of that
kind in traversal order, fields of absent kinds staying zero, while one
control function is appended per recognized manifest in decode order. -/
theorem stage_build_last_write_wins
    (v0 : V) (filesOf : String → List String) (dec : Kind → String → Option V)
    (path : String)
    (hx : ∀ m ∈ filesOf path, (extractKindResult m).isSome = true)
    (hd : ∀ m ∈ filesOf path, ∀ k, kindOf m = some k → (dec k m).isSome = true) :
    ∃ acc, addResourcesControls v0 filesOf dec path = some acc
      ∧ acc.ctrl = recKinds (filesOf path)
      ∧ (∀ k : Kind, ∀ m2, lastOfKind (filesOf path) k = some m2 →
          ∃ v, dec k m2 = some v ∧ getField acc.res k = v)
      ∧ (∀ k : Kind, lastOfKind (filesOf path) k = none →
          getField acc.res k = v0) := by
  obtain ⟨acc, hb, hctrl, _, hnone, hsome⟩ :=
    buildFrom_charac dec (filesOf path) ⟨Resources.zero v0, [], []⟩ hx hd
  refine ⟨acc, hb, ?_, hsome, ?_⟩
  · simpa using hctrl
  · intro k hk
    rw [hnone k hk]
    exact getField_zero v0 k

/-- Claim C9 witness: with two ConfigMap manifests in msW the ConfigMap
field holds the decode of the later one. -/
theorem stage_build_last_write_witness :
    ∃ acc, addResourcesControls 0 (fun _ => msW) decW "/opt/nfd/master" = some acc
      ∧ acc.ctrl = recKinds msW
      ∧ (∀ k : Kind, ∀ m2, lastOfKind msW k = some m2 →
          ∃ v, decW k m2 = some v ∧ getField acc.res k = v)
      ∧ (∀ k : Kind, lastOfKind msW k = none → getField acc.res k = 0) :=
  stage_build_last_write_wins 0 (fun _ => msW) decW "/opt/nfd/master"
    (by decide) (by decide)

/-- Claim C10: a manifest without any match of the kind pattern makes
FindString yield no match; splitting the resulting empty string on colons
gives a single piece, so the indexing of element 1 is out of range and
stage construction aborts instead of skipping or returning an error. -/
theorem missing_kind_marker_aborts_build :
    findString "apiVersion: v1\nmetadata:\n  name: test\n" = none
    ∧ (splitColon (("" : String).toList)).length = 1
    ∧ extractKindResult "apiVersion: v1\nmetadata:\n  name: test\n" = none
    ∧ addResourcesControls () (fun _ => ["apiVersion: v1\nmetadata:\n  name: test\n"])
        (fun _ _ => some ()) "/opt/nfd/master" = none := by
  refine ⟨by decide, by decide, by decide, by decide⟩

/- ===== Claim theorems: stepper and reconcile ===== -/

/-- Claim C1: for every stage and cursor position, step executes the
stage's control functions strictly in list order, returns at the first
function reporting a non-ready status or an error without invoking any
later function of the stage, and returns no error when every function
reports ready. -/
theorem step_short_circuits_at_first_failure
    (eval : F → NFD V F → ResourceStatus × Option Err)
    (n : NFD V F) (stage : List F)
    (hs : n.controls[n.idx]? = some stage) :
    ((∀ f ∈ stage, isReadyRes (eval f n)) →
       n.step eval = some ({ n with idx := n.idx + 1 }, none)
       ∧ invokedControls eval n stage = stage)
  ∧ (∀ (i : Nat) (f : F), stage[i]? = some f →
       (∀ g ∈ stage.take i, isReadyRes (eval g n)) →
       ¬ isReadyRes (eval f n) →
       n.step eval = some (n, some (failMsg (eval f n)))
       ∧ invokedControls eval n stage = stage.take (i+1)) := by
  constructor
  · intro hready
    refine ⟨?_, invoked_of_all_ready eval n stage hready⟩
    simp only [NFD.step, hs, runStage_of_all_ready eval n stage hready]
  · intro i f hf hpre hfail
    obtain ⟨ha, hb⟩ := runStage_first_fail eval n stage i f hf hpre hfail
    refine ⟨?_, hb⟩
    simp only [NFD.step, hs, ha]

/-- Claim C1 witness: in the three-function stage stageW whose second
function reports NotReady, step stops there with the ResourceNotReady
error and only the first two functions are invoked. -/
theorem step_short_circuit_witness :
    nW.step evalW = some (nW, some "ResourceNotReady")
  ∧ invokedControls evalW nW stageW = [Kind.Namespace, Kind.ServiceAccount] := by
  have h := (step_short_circuits_at_first_failure evalW nW stageW (by decide)).2
    1 Kind.ServiceAccount (by decide) (by decide) (by decide)
  exact h

/-- Claim C2: for every stepper state, the cursor advances by exactly one
on a step call whose current stage has every control function ready, is
unchanged on a step call that returns an error, and never decreases on
any step call that returns; and, for every state with any cursor value
(converged or not), last is true exactly when the cursor equals the
stage count. -/
theorem step_cursor_monotone_and_converged
    (eval : F → NFD V F → ResourceStatus × Option Err) (n : NFD V F) :
    (∀ stage : List F, n.controls[n.idx]? = some stage →
       (∀ f ∈ stage, isReadyRes (eval f n)) →
       ∃ n2, n.step eval = some (n2, none) ∧ n2.idx = n.idx + 1)
  ∧ (∀ n2 e, n.step eval = some (n2, some e) → n2.idx = n.idx)
  ∧ (∀ n2 r, n.step eval = some (n2, r) → n.idx ≤ n2.idx)
  ∧ (n.last = true ↔ n.idx = n.controls.length) := by
  refine ⟨?_, ?_, ?_, ?_⟩
  · intro stage hs hready
    exact ⟨{ n with idx := n.idx + 1 },
      by simp only [NFD.step, hs, runStage_of_all_ready eval n stage hready], rfl⟩
  · intro n2 e h
    unfold NFD.step at h
    split at h
    · exact absurd h (by simp)
    · rename_i stage hs
      cases hr : runStage eval n stage with
      | some e2 =>
        rw [hr] at h
        simp only [Option.some.injEq, Prod.mk.injEq] at h
        rcases h with ⟨h1, _⟩
        rw [← h1]
      | none =>
        rw [hr] at h
        simp at h
  · intro n2 r h
    unfold NFD.step at h
    split at h
    · exact absurd h (by simp)
    · rename_i stage hs
      cases hr : runStage eval n stage with
      | some e2 =>
        rw [hr] at h
        simp only [Option.some.injEq, Prod.mk.injEq] at h
        rcases h with ⟨h1, _⟩
        rw [← h1]
      | none =>
        rw [hr] at h
        simp only [Option.some.injEq, Prod.mk.injEq] at h
        rcases h with ⟨h1, _⟩
        rw [← h1]
        exact Nat.le_succ n.idx
  · simp [NFD.last]

/-- Claim C2 witness: with every function ready the cursor of nW advances
from 0 to 1; last of nW is false with its cursor 0 short of the one-stage
count, and on the converged stepper nConv, whose cursor 1 equals the
stage count, last is true. -/
theorem step_cursor_witness :
    (∃ n2, nW.step evalReadyW = some (n2, none) ∧ n2.idx = nW.idx + 1)
  ∧ (nW.last = true ↔ nW.idx = nW.controls.length)
  ∧ nConv.last = true := by
  refine ⟨?_, ?_, ?_⟩
  · exact (step_cursor_monotone_and_converged evalReadyW nW).1 stageW
      (by decide) (by decide)
  · exact (step_cursor_monotone_and_converged evalReadyW nW).2.2.2
  · exact (step_cursor_monotone_and_converged evalReadyW nConv).2.2.2.mpr (by decide)

/-- Claim C3 counterexample: with stage 1 reporting NotReady, Reconcile
returns the ResourceNotReady error, but inside the zero reconcile.Result,
whose Requeue flag is false — not the requeue=true the claim states (the
framework requeues because the error is non-nil, not via the flag). -/
theorem reconcile_notReady_requeue_counterexample :
    Reconcile () filesEmpty decUnit evalC3 FetchResult.found "r" "i" nC3
      = some (⟨false⟩, some "ResourceNotReady", nC3)
    ∧ Reconcile () filesEmpty decUnit evalC3 FetchResult.found "r" "i" nC3
      ≠ some (⟨true⟩, some "ResourceNotReady", nC3) := by
  have hstep : nC3.step evalC3 = some (nC3, some "ResourceNotReady") := by decide
  have hrun := runSteps_error evalC3 nC3 nC3 "ResourceNotReady" hstep
  have hinit : nC3.init () filesEmpty decUnit "r" "i" = some nC3 := by decide
  constructor
  · simp only [Reconcile, hinit, hrun]
  · simp only [Reconcile, hinit, hrun]
    decide

/-- Claim C3 (amended): when a control function of the first stage reports
NotReady with no error and all earlier functions are ready, step on the
freshly initialized state returns the fixed error ResourceNotReady (the
message that identifies the not-ready condition), the cursor stays at 0,
and Reconcile returns that error inside the zero Result whose Requeue
flag is false; requeueing is driven by the non-nil error. -/
theorem step_notReady_surfaces_error
    (v0 : V) (filesOf : String → List String) (dec : Kind → String → Option V)
    (eval : Kind → NFD V Kind → ResourceStatus × Option Err)
    (r i : String) (n : NFD V Kind)
    (hne : n.controls ≠ [])
    (stage0 : List Kind)
    (h0 : n.controls[0]? = some stage0)
    (j : Nat) (f : Kind) (hf : stage0[j]? = some f)
    (hpre : ∀ g ∈ stage0.take j,
      isReadyRes (eval g { n with recr := some r, ins := some i, idx := 0 }))
    (herr : (eval f { n with recr := some r, ins := some i, idx := 0 }).2 = none)
    (hstat : (eval f { n with recr := some r, ins := some i, idx := 0 }).1
      = ResourceStatus.NotReady) :
    n.init v0 filesOf dec r i
      = some { n with recr := some r, ins := some i, idx := 0 }
    ∧ ({ n with recr := some r, ins := some i, idx := 0 } : NFD V Kind).step eval
      = some ({ n with recr := some r, ins := some i, idx := 0 },
          some "ResourceNotReady")
    ∧ Reconcile v0 filesOf dec eval FetchResult.found r i n
      = some (⟨false⟩, some "ResourceNotReady",
          { n with recr := some r, ins := some i, idx := 0 }) := by
  have hlen : (n.controls.length == 0) = false :=
    beq_eq_false_iff_ne.mpr (fun hz => hne (List.length_eq_zero.mp hz))
  have hinit : n.init v0 filesOf dec r i
      = some { n with recr := some r, ins := some i, idx := 0 } := by
    simp [NFD.init, hlen]
  have hfail : ¬ isReadyRes (eval f { n with recr := some r, ins := some i, idx := 0 }) := by
    intro hcon
    have h2 := hcon.2
    rw [hstat] at h2
    simp at h2
  obtain ⟨ha, _⟩ := runStage_first_fail eval
    { n with recr := some r, ins := some i, idx := 0 } stage0 j f hf hpre hfail
  have hfm : failMsg (eval f { n with recr := some r, ins := some i, idx := 0 })
      = "ResourceNotReady" := by
    unfold failMsg
    rw [herr]
  have hstep : ({ n with recr := some r, ins := some i, idx := 0 } : NFD V Kind).step eval
      = some ({ n with recr := some r, ins := some i, idx := 0 },
          some "ResourceNotReady") := by
    have h0b : ({ n with recr := some r, ins := some i, idx := 0 } :
        NFD V Kind).controls[({ n with recr := some r, ins := some i, idx := 0 } :
        NFD V Kind).idx]? = some stage0 := h0
    simp only [NFD.step, h0b, ha, hfm]
  have hrun := runSteps_error eval { n with recr := some r, ins := some i, idx := 0 }
    { n with recr := some r, ins := some i, idx := 0 } "ResourceNotReady" hstep
  refine ⟨hinit, hstep, ?_⟩
  simp only [Reconcile, hinit, hrun]

/-- Claim C3 witness: on the concrete one-stage stepper with a NotReady
control function, init resets the cursor to 0, step returns the
ResourceNotReady error with the cursor still 0, and Reconcile returns the
error with a false Requeue flag. -/
theorem step_notReady_witness :
    nFull.init () filesEmpty decUnit "r" "i" = some nC3
  ∧ nC3.step evalC3 = some (nC3, some "ResourceNotReady")
  ∧ Reconcile () filesEmpty decUnit evalC3 FetchResult.found "r" "i" nFull
      = some (⟨false⟩, some "ResourceNotReady", nC3) := by
  have h := step_notReady_surfaces_error () filesEmpty decUnit evalC3 "r" "i" nFull
    (by decide) [Kind.Namespace] (by decide) 0 Kind.Namespace (by decide)
    (by decide) (by decide) (by decide)
  exact h

/-- Claim C6: init builds and appends the two configured stages only when
the control list is empty; on every later call it only rebinds the
reconciler and the instance and resets the cursor to 0, leaving the stage
list and the resource bundles unchanged and reading nothing from the
filesystem (the result is the same under any filesystem and decoder). -/
theorem init_builds_stages_once
    (v0 : V) (filesOf filesOf2 : String → List String)
    (dec dec2 : Kind → String → Option V) (r i : String) (n : NFD V Kind) :
    (n.controls ≠ [] →
       n.init v0 filesOf dec r i
         = some { n with recr := some r, ins := some i, idx := 0 }
       ∧ n.init v0 filesOf dec r i = n.init v0 filesOf2 dec2 r i)
  ∧ (n.controls = [] →
       ∀ a1 a2 : BuildAcc V,
         addResourcesControls v0 filesOf dec "/opt/nfd/master" = some a1 →
         addResourcesControls v0 filesOf dec "/opt/nfd/worker" = some a2 →
         n.init v0 filesOf dec r i
           = some { n with
                    recr := some r,
                    ins := some i,
                    idx := 0,
                    controls := [a1.ctrl, a2.ctrl],
                    resources := n.resources ++ [a1.res, a2.res] }) := by
  constructor
  · intro hne
    have hlen : (n.controls.length == 0) = false :=
      beq_eq_false_iff_ne.mpr (fun hz => hne (List.length_eq_zero.mp hz))
    constructor
    · simp [NFD.init, hlen]
    · simp [NFD.init, hlen]
  · intro hc a1 a2 h1 h2
    have hlen : (n.controls.length == 0) = true := by rw [hc]; rfl
    simp only [NFD.init, NFD.addState, hlen, h1, h2, if_true]
    simp [hc]

/-- Claim C6 witness: a stepper with one built stage is only rebound and
cursor-reset by init, identically under two different filesystems, while
a stepper with no stages gets the two configured stages appended. -/
theorem init_builds_once_witness :
    (nFull.init () filesEmpty decUnit "r" "i" = some nC3
       ∧ nFull.init () filesEmpty decUnit "r" "i"
           = nFull.init () (fun _ => ["kind: Namespace\n"]) decUnit "r" "i")
  ∧ nEmpty.init () filesEmpty decUnit "r" "i"
      = some ⟨[Resources.zero (), Resources.zero ()], [[], []],
          some "r", some "i", 0⟩ := by
  refine ⟨?_, ?_⟩
  · have h := (init_builds_stages_once () filesEmpty (fun _ => ["kind: Namespace\n"])
      decUnit decUnit "r" "i" nFull).1 (by decide)
    exact ⟨h.1, h.2⟩
  · exact (init_builds_stages_once () filesEmpty filesEmpty decUnit decUnit
      "r" "i" nEmpty).2 rfl ⟨Resources.zero (), [], []⟩ ⟨Resources.zero (), [], []⟩
      rfl rfl

/-- Claim C7: a not-found fetch makes Reconcile return requeue false with
a nil error, the stepper untouched (neither init nor step runs, the
result being independent of all of them); any other fetch failure makes
it return requeue true with the error attached, again with the stepper
untouched. -/
theorem reconcile_fetch_outcomes
    (v0 : V) (filesOf : String → List String) (dec : Kind → String → Option V)
    (eval : Kind → NFD V Kind → ResourceStatus × Option Err)
    (r i : String) (n : NFD V Kind) :
    Reconcile v0 filesOf dec eval FetchResult.notFound r i n
      = some (⟨false⟩, none, n)
  ∧ ∀ e : Err, Reconcile v0 filesOf dec eval (FetchResult.failed e) r i n
      = some (⟨true⟩, some e, n) :=
  ⟨rfl, fun _ => rfl⟩
